import Mathlib

/-!
Shallow embedding of the RSS reader `src/rss.py` (single-file CLI tool).

Strings from the Python program are modelled as `List Char`; the ASCII
fragment of Python's `str` methods and of the `re` character classes is
modelled faithfully (`\w` as `[A-Za-z0-9_]`, `\s` as ASCII whitespace),
which covers every string the program's claims are about.
-/

namespace RSSPy

/-- Python `str.lower` on one character (ASCII model): `A`-`Z` maps to
`a`-`z`, every other character is unchanged.  This matches CPython's
behaviour on the ASCII plane. -/
def pyLower (c : Char) : Char :=
  if 65 ≤ c.toNat ∧ c.toNat ≤ 90 then Char.ofNat (c.toNat + 32) else c

/-- Python regex class `\s` (ASCII model): space, tab, newline, carriage
return, vertical tab, form feed. -/
def pyIsSpace (c : Char) : Bool :=
  c = ' ' || c = '\t' || c = '\n' || c = '\r' || c = '\x0b' || c = '\x0c'

/-- Python regex class `\w` (ASCII model): letters, digits, underscore. -/
def pyIsWord (c : Char) : Bool :=
  (65 ≤ c.toNat && c.toNat ≤ 90) || (97 ≤ c.toNat && c.toNat ≤ 122) ||
    (48 ≤ c.toNat && c.toNat ≤ 57) || c = '_'

/-- A hyphen test, as a `Bool` predicate. -/
def isDash (c : Char) : Bool :=
  c = '-'

/-- Characters matched by the regex class `[-\s]` used in `slugify`. -/
def isDashOrSpace (c : Char) : Bool :=
  isDash c || pyIsSpace c

/-- Python `str.isdigit` (ASCII model): nonempty and all characters in
`0`-`9`. -/
def pyIsDigitStr (s : List Char) : Bool :=
  !s.isEmpty && s.all Char.isDigit

/-- Python `int(...)` on a digit string: usual base-10 reading. -/
def pyStrToNat (s : List Char) : Nat :=
  s.foldl (fun acc c => 10 * acc + (c.toNat - 48)) 0

/-- Python slice `text[:k]` for an `Int` bound `k`: a negative bound counts
from the end of the string (clamped at zero). -/
def pySliceTo (l : List Char) (k : Int) : List Char :=
  if k < 0 then l.take (((l.length : Int) + k).toNat) else l.take k.toNat

/-- Helper for `re.sub(r'[-\s]+', '-', text)`: scans left to right; a
maximal run of characters from `[-\s]` is replaced by a single `-`.  The
flag records whether the scanner is inside such a run. -/
def collapseAux : Bool → List Char → List Char
  | _, [] => []
  | inRun, c :: cs =>
    if isDashOrSpace c then
      if inRun then collapseAux true cs else '-' :: collapseAux true cs
    else
      c :: collapseAux false cs

/-- Python `str.strip('-')`: removes every leading and trailing hyphen. -/
def stripDashes (l : List Char) : List Char :=
  (l.dropWhile isDash).rdropWhile isDash

/-- The class of characters kept by `re.sub(r'[^\w\s-]', '', text)`. -/
def keepChar (c : Char) : Bool :=
  pyIsWord c || pyIsSpace c || c = '-'

/-- Embedding of `slugify` (src/rss.py lines 40-45): lowercase, delete the
characters matching `[^\w\s-]`, collapse runs matching `[-\s]+` to one
hyphen, strip leading and trailing hyphens. -/
def slugify (l : List Char) : List Char :=
  stripDashes (collapseAux false ((l.map pyLower).filter keepChar))

/-- Absence of two adjacent hyphens, the shape `re.sub(r'[-\s]+', '-', _)`
guarantees for its output. -/
def noTwoDash : List Char → Bool
  | c :: d :: rest => !(isDash c && isDash d) && noTwoDash (d :: rest)
  | _ => true

/-- Embedding of `truncate_text` (src/rss.py lines 179-183): texts of
length at most `max_width` are returned unchanged, otherwise the Python
program returns `text[:max_width - 3] + "..."` (note the slice bound is
negative when `max_width < 3`). -/
def truncate_text (text : List Char) (max_width : Nat) : List Char :=
  if text.length ≤ max_width then text
  else pySliceTo text ((max_width : Int) - 3) ++ "...".toList

/-- Embedding of `ceil(len(items) / c)` as used for `total_pages`
(src/rss.py lines 101 and 194), as a natural-number ceiling division. -/
def total_pages (n c : Nat) : Nat :=
  (n + c - 1) / c

/-- Embedding of `get_page_entries` (src/rss.py lines 198-202) and of the
slice in `get_page_content` (lines 105-109): page `page_num` is the slice
`items[(page_num - 1) * c : (page_num - 1) * c + c]`. -/
def get_page_entries (entries : List α) (c : Nat) (page_num : Nat) : List α :=
  (entries.drop ((page_num - 1) * c)).take c

/-- Concatenation, in order, of the pages `1 .. total_pages` produced by
`get_page_entries`. -/
def concat_pages (entries : List α) (c : Nat) : List α :=
  ((List.range (total_pages entries.length c)).map
    (fun i => get_page_entries entries c (i + 1))).flatten

/-- The page-counter fragment of the list-view header
(src/rss.py line 248): the f-string `Page ... of ...`. -/
def page_header (current total : Nat) : String :=
  "Page " ++ toString current ++ " of " ++ toString total

/-- Initial value of `current_page` in `display_feed` (src/rss.py
line 195) and in `display_article` (line 102). -/
def initial_page : Nat := 1

/-- A parsed calendar date, the result of `dateutil.parser.parse` (treated
as a black box) on an entry's date string. -/
structure PDate where
  year : Nat
  month : Nat
  day : Nat
deriving DecidableEq, Repr

/-- A feed entry as the program reads it: each field either present or
absent (`article.get(...)`); date fields are carried already parsed since
`dateutil` is an external collaborator. -/
structure Article where
  title : Option String
  published : Option PDate
  updated : Option PDate
  link : Option String
deriving DecidableEq, Repr

/-- English month abbreviation, the `%b` directive of `strftime` under the
default locale. -/
def monthAbbrev : Nat → String
  | 1 => "Jan"
  | 2 => "Feb"
  | 3 => "Mar"
  | 4 => "Apr"
  | 5 => "May"
  | 6 => "Jun"
  | 7 => "Jul"
  | 8 => "Aug"
  | 9 => "Sep"
  | 10 => "Oct"
  | 11 => "Nov"
  | 12 => "Dec"
  | _ => ""

/-- Zero-padding to two digits, the `%m` and `%d` directives. -/
def pad2 (n : Nat) : String :=
  if n < 10 then "0" ++ toString n else toString n

/-- Zero-padding to four digits, the `%Y` directive. -/
def pad4 (n : Nat) : String :=
  if n < 10 then "000" ++ toString n
  else if n < 100 then "00" ++ toString n
  else if n < 1000 then "0" ++ toString n
  else toString n

/-- `strftime("%b %-d, %Y")` (src/rss.py line 59): abbreviated month, the
day without padding, the year. -/
def fmtPretty (d : PDate) : String :=
  monthAbbrev d.month ++ " " ++ toString d.day ++ ", " ++ toString d.year

/-- `strftime('%Y-%m-%d')` (src/rss.py line 55). -/
def fmtISO (d : PDate) : String :=
  pad4 d.year ++ "-" ++ pad2 d.month ++ "-" ++ pad2 d.day

/-- Embedding of `get_date` (src/rss.py lines 48-59).  `now` stands for
`datetime.now()`.  When a `published` (else `updated`) date is present the
function returns it in the pretty `%b %-d, %Y` format regardless of the
`pretty` flag; the ISO form only appears in the no-date fallback taken
when `pretty` is false. -/
def get_date (a : Article) (pretty : Bool) (now : PDate) : String :=
  match a.published with
  | some d => fmtPretty d
  | none =>
    match a.updated with
    | some d => fmtPretty d
    | none => if pretty then "No date" else fmtISO now

/-- The file path computed by `save_as_markdown` (src/rss.py lines 70-72):
`articles/` followed by the first ten characters of
`get_date(article, pretty=False)`, a hyphen, the slug of the title
(default `Untitled`), and `.md`. -/
def save_as_markdown_filename (a : Article) (now : PDate) : List Char :=
  "articles/".toList ++ (get_date a false now).toList.take 10 ++
    '-' :: slugify (a.title.getD "Untitled").toList ++ ".md".toList

/-- Result of one command in the list view (`handle_command` inside
`display_feed`, src/rss.py lines 266-280): quit, keep going, or open an
article by its 1-based number. -/
inductive FeedAction where
  | quit : FeedAction
  | stay : FeedAction
  | openArticle : Nat → FeedAction
deriving DecidableEq, Repr

/-- Embedding of `handle_command` inside `display_feed` (src/rss.py lines
266-280), returning the action together with the new `current_page`. -/
def feed_handle_command (cmd : String) (current_page tp entry_count : Nat) :
    FeedAction × Nat :=
  if cmd = "q" then (.quit, current_page)
  else if cmd = "k" ∧ current_page < tp then (.stay, current_page + 1)
  else if cmd = "j" ∧ 1 < current_page then (.stay, current_page - 1)
  else if pyIsDigitStr cmd.toList then
    if 1 ≤ pyStrToNat cmd.toList ∧ pyStrToNat cmd.toList ≤ entry_count then
      (.openArticle (pyStrToNat cmd.toList), current_page)
    else (.stay, current_page)
  else (.stay, current_page)

/-- Result of one command in the article view (`handle_command` inside
`display_article`, src/rss.py lines 145-163): leave the view, keep going,
open the browser, or save and leave (`'s'` returns `False`). -/
inductive ArticleAction where
  | exitView : ArticleAction
  | stay : ArticleAction
  | openBrowser : ArticleAction
  | saveExit : String → ArticleAction
deriving DecidableEq, Repr

/-- Embedding of `handle_command` inside `display_article` (src/rss.py
lines 145-163).  The outcome of the external write in `save_as_markdown`
is passed in as `save`; since the Python code wraps it in no
`try`/`except`, a failing write makes the whole handler raise, modelled by
propagating `Except.error`. -/
def article_handle_command (cmd : String) (save : Except String String)
    (current_page tp : Nat) : Except String (ArticleAction × Nat) :=
  if cmd = "q" then .ok (.exitView, current_page)
  else if cmd = "k" ∧ current_page < tp then .ok (.stay, current_page + 1)
  else if cmd = "j" ∧ 1 < current_page then .ok (.stay, current_page - 1)
  else if cmd = "o" then .ok (.openBrowser, current_page)
  else if cmd = "s" then
    match save with
    | .ok fn => .ok (.saveExit fn, current_page)
    | .error e => .error e
  else .ok (.stay, current_page)

/-- The whole view: either the feed list (with its `current_page`), an
open article (entry index, the list view's saved page, the article's own
page), or finished. -/
inductive ViewState where
  | listing : Nat → ViewState
  | reading : Nat → Nat → Nat → ViewState
  | done : ViewState
deriving DecidableEq, Repr

/-- One step of the nested command loops of `display_feed` and
`display_article` (src/rss.py lines 282-295 and 165-174).  Opening entry
`n` starts `display_article` with its own `current_page = 1` while the
list's `current_page` is merely suspended in the enclosing scope; leaving
the article view resumes the list with that page. -/
def session_step (cmd : String) (save : Except String String)
    (ftp entry_count atp : Nat) : ViewState → Except String ViewState
  | .listing cp =>
    match feed_handle_command cmd cp ftp entry_count with
    | (.quit, _) => .ok .done
    | (.stay, p) => .ok (.listing p)
    | (.openArticle n, p) => .ok (.reading (n - 1) p 1)
  | .reading e lcp acp =>
    match article_handle_command cmd save acp atp with
    | .error err => .error err
    | .ok (.exitView, _) => .ok (.listing lcp)
    | .ok (.saveExit _, _) => .ok (.listing lcp)
    | .ok (.openBrowser, p) => .ok (.reading e lcp p)
    | .ok (.stay, p) => .ok (.reading e lcp p)
  | .done => .ok .done

/-- The list page recorded in a view state (the suspended one while an
article is open). -/
def stateListPage : ViewState → Nat
  | .listing p => p
  | .reading _ lp _ => lp
  | .done => 0

/-- The list page of a step result, with a default for the crashed
(exception) case. -/
def resultListPage (r : Except String ViewState) (dflt : Nat) : Nat :=
  match r with
  | .ok st => stateListPage st
  | .error _ => dflt

/-- The page carried in an article-view handler result, with a default for
the crashed (exception) case. -/
def resultArticlePage (r : Except String (ArticleAction × Nat)) (dflt : Nat) : Nat :=
  match r with
  | .ok (_, p) => p
  | .error _ => dflt

/-! ### Arithmetic of `total_pages` -/

theorem total_pages_nil (c : Nat) (hc : 1 ≤ c) : total_pages 0 c = 0 := by
  unfold total_pages
  exact Nat.div_eq_of_lt (by omega)

theorem total_pages_step (n c : Nat) (hc : 1 ≤ c) (hn : 1 ≤ n) :
    total_pages n c = total_pages (n - c) c + 1 := by
  unfold total_pages
  rcases le_or_lt n c with h | h
  · have e1 : n + c - 1 = (n - 1) + c := by omega
    have e4 : n - c = 0 := by omega
    rw [e1, Nat.add_div_right _ (by omega), Nat.div_eq_of_lt (by omega), e4,
      Nat.zero_add, Nat.div_eq_of_lt (by omega)]
  · have e1 : n + c - 1 = (n - c + c - 1) + c := by omega
    rw [e1, Nat.add_div_right _ (by omega)]

theorem concat_pages_step (items : List α) (c : Nat) (hc : 1 ≤ c)
    (hne : items ≠ []) :
    concat_pages items c = items.take c ++ concat_pages (items.drop c) c := by
  have hn1 : 1 ≤ items.length := List.length_pos.mpr hne
  unfold concat_pages
  rw [List.length_drop, total_pages_step items.length c hc hn1,
    List.range_succ_eq_map, List.map_cons, List.flatten_cons, List.map_map]
  congr 1
  · simp [get_page_entries]
  · congr 1
    apply List.map_congr_left
    intro i _
    show get_page_entries items c (i + 1 + 1) = get_page_entries (items.drop c) c (i + 1)
    unfold get_page_entries
    rw [List.drop_drop]
    have e2 : (i + 1 + 1 - 1) * c = c + (i + 1 - 1) * c := by
      simp [Nat.succ_mul, Nat.add_comm]
    rw [e2]

/-- C1: pagination partition: for every list of items and every capacity
`c ≥ 1`, concatenating the page slices for pages `1 .. ceil(n/c)` in order
reproduces the original sequence exactly. -/
theorem pagination_partition (items : List α) (c : Nat) (hc : 1 ≤ c) :
    concat_pages items c = items := by
  have aux : ∀ (n : Nat) (l : List α), l.length ≤ n → concat_pages l c = l := by
    intro n
    induction n with
    | zero =>
      intro l hl
      have : l = [] := List.length_eq_zero.mp (Nat.le_zero.mp hl)
      subst this
      simp [concat_pages, total_pages_nil c hc]
    | succ n ih =>
      intro l hl
      rcases eq_or_ne l [] with rfl | hne
      · simp [concat_pages, total_pages_nil c hc]
      · have h1 : 1 ≤ l.length := List.length_pos.mpr hne
        rw [concat_pages_step l c hc hne,
          ih (l.drop c) (by simp only [List.length_drop]; omega)]
        exact List.take_append_drop c l
  exact aux items.length items le_rfl

/-- C1 witness: the partition property evaluated at a concrete list and
capacity. -/
theorem pagination_partition_witness :
    1 ≤ 2 ∧ concat_pages [1, 2, 3, 4, 5] 2 = [1, 2, 3, 4, 5] :=
  ⟨by decide, pagination_partition [1, 2, 3, 4, 5] 2 (by decide)⟩

/-- C2 counterexample: with zero entries, `total_pages` is `0`, so the
rendered header is not `Page 1 of 1`. -/
theorem empty_feed_header_not_one_of_one :
    page_header initial_page (total_pages ([] : List Article).length 5) ≠ "Page 1 of 1" := by
  decide

/-- C2 (amended): for an empty item sequence and any capacity `c ≥ 1` the
page count is `0`, page 1 is the empty slice, and the header reads
`Page 1 of 0` (the code has no single-empty-page clamping). -/
theorem empty_feed_renders_page_one_of_zero (c : Nat) (hc : 1 ≤ c) :
    total_pages ([] : List Article).length c = 0
    ∧ get_page_entries ([] : List Article) c 1 = []
    ∧ page_header initial_page (total_pages ([] : List Article).length c) = "Page 1 of 0" := by
  have h0 : total_pages ([] : List Article).length c = 0 := total_pages_nil c hc
  refine ⟨h0, ?_, ?_⟩
  · simp [get_page_entries]
  · rw [h0]
    rfl

/-- C2 witness: the amended statement evaluated at capacity 5. -/
theorem empty_feed_renders_page_one_of_zero_witness :
    total_pages ([] : List Article).length 5 = 0
    ∧ get_page_entries ([] : List Article) 5 1 = []
    ∧ page_header initial_page (total_pages ([] : List Article).length 5) = "Page 1 of 0" :=
  empty_feed_renders_page_one_of_zero 5 (by decide)

/-- C4: evaluation of `truncate_text` at the failing input: with
`max_width = 10`, the text `hello world` is cut in the middle of the word
`world`, although the whole-word result `hello...` would fit; the code
contradicts its own docstring `preserving words`. -/
theorem truncate_text_cuts_mid_word :
    truncate_text "hello world".toList 10 = "hello w...".toList
    ∧ "hello w...".toList ≠ "hello...".toList := by
  decide

/-- C5 counterexample: at `max_width = 1` the Python negative slice makes
the result `...` of length 3, exceeding the requested width. -/
theorem truncate_text_exceeds_width_one :
    ¬ ((truncate_text "ab".toList 1).length ≤ 1) := by
  decide

/-- C5 (amended): the length bound `len(truncate(t, w)) ≤ w` holds for all
`w ≥ 3` (not all `w ≥ 1`), and texts no longer than `w` are returned
unchanged. -/
theorem truncate_text_length_bound (t : List Char) (w : Nat) :
    (3 ≤ w → (truncate_text t w).length ≤ w)
    ∧ (t.length ≤ w → truncate_text t w = t) := by
  constructor
  · intro hw
    unfold truncate_text
    split
    · omega
    · rename_i h
      push_neg at h
      unfold pySliceTo
      rw [if_neg (by omega)]
      have e : ((w : Int) - 3).toNat = w - 3 := by omega
      have h3 : ("...".toList).length = 3 := by decide
      rw [e]
      simp only [List.length_append, List.length_take, h3]
      omega
  · intro h
    unfold truncate_text
    rw [if_pos h]

/-- C5 witness: both parts of the amended statement at concrete inputs. -/
theorem truncate_text_length_bound_witness :
    (truncate_text "hello world".toList 3).length ≤ 3
    ∧ truncate_text "ab".toList 5 = "ab".toList :=
  ⟨(truncate_text_length_bound "hello world".toList 3).1 (by decide),
    (truncate_text_length_bound "ab".toList 5).2 (by decide)⟩

/-- C6: evaluation at the failing input: an entry published 2024-03-05
with title `My Post` is exported to `articles/Mar 5, 202-my-post.md`
(the pretty `%b %-d, %Y` date truncated to ten characters), not to
`articles/2024-03-05-my-post.md`; only the no-date fallback (third
conjunct) produces the intended ISO date prefix. -/
theorem save_filename_uses_truncated_pretty_date :
    save_as_markdown_filename ⟨some "My Post", some ⟨2024, 3, 5⟩, none, none⟩ ⟨2026, 10, 12⟩
      = "articles/Mar 5, 202-my-post.md".toList
    ∧ "articles/Mar 5, 202-my-post.md".toList ≠ "articles/2024-03-05-my-post.md".toList
    ∧ save_as_markdown_filename ⟨some "My Post", none, none, none⟩ ⟨2024, 3, 5⟩
      = "articles/2024-03-05-my-post.md".toList := by
  decide

/-- C7 counterexample: when the markdown write raises an I/O error, the
save command inside the article view propagates the exception instead of
reporting it and continuing. -/
theorem save_io_error_escapes_handler :
    article_handle_command "s" (Except.error "disk full") 2 5 = Except.error "disk full" := by
  rfl

/-- C7 (amended): an I/O failure during the save command always
propagates out of the article-view command handler (there is no
`try`/`except`), aborting the view loop rather than surfacing a message
and continuing. -/
theorem save_io_error_propagates (cp tp : Nat) (e : String) :
    article_handle_command "s" (Except.error e) cp tp = Except.error e := by
  unfold article_handle_command
  rw [if_neg (by decide : ¬ ("s" : String) = "q"),
    if_neg (fun h => absurd h.1 (by decide)),
    if_neg (fun h => absurd h.1 (by decide)),
    if_neg (by decide : ¬ ("s" : String) = "o"),
    if_pos (rfl : ("s" : String) = "s")]

/-! ### View state machine -/

theorem digit_cmd_ne (s : String) (hd : pyIsDigitStr s.toList = true) :
    s ≠ "q" ∧ s ≠ "k" ∧ s ≠ "j" ∧ s ≠ "o" ∧ s ≠ "s" := by
  refine ⟨fun h => ?_, fun h => ?_, fun h => ?_, fun h => ?_, fun h => ?_⟩ <;>
    subst h <;> exact absurd hd (by decide)

theorem feed_page_bounds (cmd : String) (cp tp ec : Nat)
    (h1 : 1 ≤ cp) (h2 : cp ≤ max tp 1) :
    1 ≤ (feed_handle_command cmd cp tp ec).2
    ∧ (feed_handle_command cmd cp tp ec).2 ≤ max tp 1 := by
  unfold feed_handle_command
  split
  · exact ⟨h1, h2⟩
  · split
    · rename_i hk
      obtain ⟨-, hlt⟩ := hk
      exact ⟨by omega, by omega⟩
    · split
      · rename_i hj
        obtain ⟨-, hlt⟩ := hj
        exact ⟨by omega, by omega⟩
      · split
        · split
          · exact ⟨h1, h2⟩
          · exact ⟨h1, h2⟩
        · exact ⟨h1, h2⟩

theorem article_page_bounds (cmd : String) (save : Except String String)
    (acp atp : Nat) (h1 : 1 ≤ acp) (h2 : acp ≤ max atp 1) :
    1 ≤ resultArticlePage (article_handle_command cmd save acp atp) acp
    ∧ resultArticlePage (article_handle_command cmd save acp atp) acp ≤ max atp 1 := by
  unfold article_handle_command
  split
  · exact ⟨h1, h2⟩
  · split
    · rename_i hk
      obtain ⟨-, hlt⟩ := hk
      refine ⟨?_, ?_⟩ <;> simp only [resultArticlePage] <;> omega
    · split
      · rename_i hj
        obtain ⟨-, hlt⟩ := hj
        refine ⟨?_, ?_⟩ <;> simp only [resultArticlePage] <;> omega
      · split
        · exact ⟨h1, h2⟩
        · split
          · cases save with
            | ok fn => exact ⟨h1, h2⟩
            | error e => exact ⟨h1, h2⟩
          · exact ⟨h1, h2⟩

theorem feed_digit_out_of_range (s : String) (cp tp ec : Nat)
    (hd : pyIsDigitStr s.toList = true)
    (hout : pyStrToNat s.toList = 0 ∨ ec < pyStrToNat s.toList) :
    feed_handle_command s cp tp ec = (.stay, cp) := by
  obtain ⟨hq, hk, hj, -, -⟩ := digit_cmd_ne s hd
  unfold feed_handle_command
  rw [if_neg hq, if_neg (fun h => hk h.1), if_neg (fun h => hj h.1), if_pos hd,
    if_neg (by omega : ¬ (1 ≤ pyStrToNat s.toList ∧ pyStrToNat s.toList ≤ ec))]

/-- C3 counterexample: for a reachable state of the program — the initial
list view of a feed with zero entries — the current page index `1` is
outside `[first page, last page] = [1, 0]`. -/
theorem empty_feed_page_outside_range :
    ¬ (initial_page ≤ total_pages ([] : List Article).length 5) := by
  decide

/-- C3 (amended): the current page of either view stays within
`[1, max(total_pages, 1)]` (for an empty source the page count is 0 while
the index is pinned at 1); a next-page command on the last page, a
prev-page command on the first page, an out-of-range numeric selection,
and an unrecognized command are each exact no-ops of both handlers. -/
theorem view_state_machine_noops (c0 s u : String) (cp tp ec acp atp : Nat)
    (save : Except String String)
    (h1 : 1 ≤ cp) (h2 : cp ≤ max tp 1)
    (ha1 : 1 ≤ acp) (ha2 : acp ≤ max atp 1)
    (hd : pyIsDigitStr s.toList = true)
    (hout : pyStrToNat s.toList = 0 ∨ ec < pyStrToNat s.toList)
    (hu1 : u ≠ "q") (hu2 : u ≠ "k") (hu3 : u ≠ "j") (hu4 : u ≠ "o")
    (hu5 : u ≠ "s") (hu6 : pyIsDigitStr u.toList = false) :
    (1 ≤ (feed_handle_command c0 cp tp ec).2
      ∧ (feed_handle_command c0 cp tp ec).2 ≤ max tp 1)
    ∧ feed_handle_command "k" tp tp ec = (.stay, tp)
    ∧ feed_handle_command "j" 1 tp ec = (.stay, 1)
    ∧ feed_handle_command s cp tp ec = (.stay, cp)
    ∧ feed_handle_command u cp tp ec = (.stay, cp)
    ∧ (1 ≤ resultArticlePage (article_handle_command c0 save acp atp) acp
      ∧ resultArticlePage (article_handle_command c0 save acp atp) acp ≤ max atp 1)
    ∧ article_handle_command "k" save atp atp = .ok (.stay, atp)
    ∧ article_handle_command "j" save 1 atp = .ok (.stay, 1)
    ∧ article_handle_command u save acp atp = .ok (.stay, acp) := by
  refine ⟨feed_page_bounds c0 cp tp ec h1 h2, ?_, ?_,
    feed_digit_out_of_range s cp tp ec hd hout, ?_,
    article_page_bounds c0 save acp atp ha1 ha2, ?_, ?_, ?_⟩
  · unfold feed_handle_command
    rw [if_neg (by decide : ¬ ("k" : String) = "q"),
      if_neg (fun h => absurd h.2 (lt_irrefl tp)),
      if_neg (fun h => absurd h.1 (by decide)),
      if_neg (by decide : ¬ pyIsDigitStr ("k" : String).toList = true)]
  · unfold feed_handle_command
    rw [if_neg (by decide : ¬ ("j" : String) = "q"),
      if_neg (fun h => absurd h.1 (by decide)),
      if_neg (fun h => absurd h.2 (lt_irrefl 1)),
      if_neg (by decide : ¬ pyIsDigitStr ("j" : String).toList = true)]
  · unfold feed_handle_command
    rw [if_neg hu1, if_neg (fun h => hu2 h.1), if_neg (fun h => hu3 h.1),
      if_neg (fun hcon => Bool.false_ne_true (hu6 ▸ hcon))]
  · unfold article_handle_command
    rw [if_neg (by decide : ¬ ("k" : String) = "q"),
      if_neg (fun h => absurd h.2 (lt_irrefl atp)),
      if_neg (fun h => absurd h.1 (by decide)),
      if_neg (by decide : ¬ ("k" : String) = "o"),
      if_neg (by decide : ¬ ("k" : String) = "s")]
  · unfold article_handle_command
    rw [if_neg (by decide : ¬ ("j" : String) = "q"),
      if_neg (fun h => absurd h.1 (by decide)),
      if_neg (fun h => absurd h.2 (lt_irrefl 1)),
      if_neg (by decide : ¬ ("j" : String) = "o"),
      if_neg (by decide : ¬ ("j" : String) = "s")]
  · unfold article_handle_command
    rw [if_neg hu1, if_neg (fun h => hu2 h.1), if_neg (fun h => hu3 h.1),
      if_neg hu4, if_neg hu5]

/-- C3 witness: the amended statement evaluated at a concrete
configuration (two list pages, three entries, out-of-range selection
`99`, unrecognized command `zz`). -/
theorem view_state_machine_noops_witness :
    (1 ≤ (feed_handle_command "x" 1 2 3).2
      ∧ (feed_handle_command "x" 1 2 3).2 ≤ max 2 1)
    ∧ feed_handle_command "k" 2 2 3 = (.stay, 2)
    ∧ feed_handle_command "j" 1 2 3 = (.stay, 1)
    ∧ feed_handle_command "99" 1 2 3 = (.stay, 1)
    ∧ feed_handle_command "zz" 1 2 3 = (.stay, 1)
    ∧ (1 ≤ resultArticlePage (article_handle_command "x" (Except.ok "f") 1 2) 1
      ∧ resultArticlePage (article_handle_command "x" (Except.ok "f") 1 2) 1 ≤ max 2 1)
    ∧ article_handle_command "k" (Except.ok "f") 2 2 = .ok (.stay, 2)
    ∧ article_handle_command "j" (Except.ok "f") 1 2 = .ok (.stay, 1)
    ∧ article_handle_command "zz" (Except.ok "f") 1 2 = .ok (.stay, 1) :=
  view_state_machine_noops "x" "99" "zz" 1 2 3 1 2 (Except.ok "f")
    (by decide) (by decide) (by decide) (by decide) (by decide)
    (by decide) (by decide) (by decide) (by decide) (by decide)
    (by decide) (by decide)

/-- C8: from list page `k`, a numeric selection enters the article view
recording `k`; the quit/back command returns to the list at page `k`; and
no command handled inside the article view ever changes the recorded list
page. -/
theorem back_preserves_list_page (c0 s : String) (k e acp ec ftp atp : Nat)
    (save : Except String String)
    (hd : pyIsDigitStr s.toList = true)
    (hn1 : 1 ≤ pyStrToNat s.toList) (hn2 : pyStrToNat s.toList ≤ ec) :
    session_step s save ftp ec atp (.listing k)
      = .ok (.reading (pyStrToNat s.toList - 1) k 1)
    ∧ session_step "q" save ftp ec atp (.reading e k acp) = .ok (.listing k)
    ∧ resultListPage (session_step c0 save ftp ec atp (.reading e k acp)) k = k := by
  refine ⟨?_, ?_, ?_⟩
  · obtain ⟨hq, hk, hj, -, -⟩ := digit_cmd_ne s hd
    have hfeed : feed_handle_command s k ftp ec = (.openArticle (pyStrToNat s.toList), k) := by
      unfold feed_handle_command
      rw [if_neg hq, if_neg (fun h => hk h.1), if_neg (fun h => hj h.1), if_pos hd,
        if_pos ⟨hn1, hn2⟩]
    show (match feed_handle_command s k ftp ec with
      | (.quit, _) => Except.ok ViewState.done
      | (.stay, p) => Except.ok (ViewState.listing p)
      | (.openArticle n, p) => Except.ok (ViewState.reading (n - 1) p 1))
      = Except.ok (ViewState.reading (pyStrToNat s.toList - 1) k 1)
    rw [hfeed]
  · have hq : article_handle_command "q" save acp atp = .ok (.exitView, acp) := rfl
    show (match article_handle_command "q" save acp atp with
      | .error err => Except.error err
      | .ok (.exitView, _) => Except.ok (ViewState.listing k)
      | .ok (.saveExit _, _) => Except.ok (ViewState.listing k)
      | .ok (.openBrowser, p) => Except.ok (ViewState.reading e k p)
      | .ok (.stay, p) => Except.ok (ViewState.reading e k p))
      = Except.ok (ViewState.listing k)
    rw [hq]
  · show resultListPage
      (match article_handle_command c0 save acp atp with
      | .error err => Except.error err
      | .ok (.exitView, _) => Except.ok (ViewState.listing k)
      | .ok (.saveExit _, _) => Except.ok (ViewState.listing k)
      | .ok (.openBrowser, p) => Except.ok (ViewState.reading e k p)
      | .ok (.stay, p) => Except.ok (ViewState.reading e k p)) k = k
    cases hr : article_handle_command c0 save acp atp with
    | error err => rfl
    | ok pr =>
      obtain ⟨act, p⟩ := pr
      cases act <;> rfl

/-- C8 witness: selecting entry 2 from list page 3, then quitting the
article, lands back on list page 3; and a concrete article-view step
keeps the recorded list page. -/
theorem back_preserves_list_page_witness :
    session_step "2" (Except.ok "f") 4 5 6 (.listing 3)
      = .ok (.reading (pyStrToNat ("2" : String).toList - 1) 3 1)
    ∧ session_step "q" (Except.ok "f") 4 5 6 (.reading 1 3 2) = .ok (.listing 3)
    ∧ resultListPage (session_step "k" (Except.ok "f") 4 5 6 (.reading 1 3 2)) 3 = 3 :=
  back_preserves_list_page "k" "2" 3 1 2 5 4 6 (Except.ok "f")
    (by decide) (by decide) (by decide)

/-- C9: the two slug-generation test vectors from the specification. -/
theorem slugify_test_vectors :
    slugify "Hello, World! 2024".toList = "hello-world-2024".toList
    ∧ slugify "  --Multiple   Spaces--  ".toList = "multiple-spaces".toList := by
  decide

/-! ### Slugify: character-level facts -/

theorem toNat_ofNat_of_valid (n : Nat) (h : n < 55296) : (Char.ofNat n).toNat = n := by
  have hv : n.isValidChar := Or.inl h
  unfold Char.ofNat
  rw [dif_pos hv]
  rfl

theorem pyLower_not_upper (c : Char) :
    ¬ (65 ≤ (pyLower c).toNat ∧ (pyLower c).toNat ≤ 90) := by
  unfold pyLower
  split
  · rename_i h
    rw [toNat_ofNat_of_valid (c.toNat + 32) (by omega)]
    omega
  · rename_i h
    exact h

theorem pyLower_fix (c : Char) (h : ¬ (65 ≤ c.toNat ∧ c.toNat ≤ 90)) :
    pyLower c = c := by
  unfold pyLower
  exact if_neg h

theorem pyLower_idem (c : Char) : pyLower (pyLower c) = pyLower c :=
  pyLower_fix (pyLower c) (pyLower_not_upper c)

theorem isDashOrSpace_false (c : Char) (h : isDashOrSpace c = false) :
    isDash c = false ∧ pyIsSpace c = false := by
  unfold isDashOrSpace at h
  exact Bool.or_eq_false_iff.mp h

/-! ### Slugify: shape of the collapsed hyphen runs -/

theorem noTwoDash_cons2 (c d : Char) (rest : List Char) :
    noTwoDash (c :: d :: rest) = (!(isDash c && isDash d) && noTwoDash (d :: rest)) := rfl

theorem noTwoDash_tail (c : Char) (l : List Char) (h : noTwoDash (c :: l) = true) :
    noTwoDash l = true := by
  cases l with
  | nil => rfl
  | cons d ds =>
    rw [noTwoDash_cons2, Bool.and_eq_true_iff] at h
    exact h.2

theorem mem_collapseAux (b : Bool) (l : List Char) :
    ∀ c ∈ collapseAux b l, c = '-' ∨ (c ∈ l ∧ isDashOrSpace c = false) := by
  induction l generalizing b with
  | nil =>
    intro c hc
    simp [collapseAux] at hc
  | cons a as ih =>
    intro c hc
    by_cases ha : isDashOrSpace a = true
    · cases b with
      | true =>
        have e : collapseAux true (a :: as) = collapseAux true as := by
          simp [collapseAux, ha]
        rw [e] at hc
        rcases ih true c hc with h | ⟨hmem, hcl⟩
        · exact Or.inl h
        · exact Or.inr ⟨List.mem_cons_of_mem a hmem, hcl⟩
      | false =>
        have e : collapseAux false (a :: as) = '-' :: collapseAux true as := by
          simp [collapseAux, ha]
        rw [e] at hc
        rcases List.mem_cons.mp hc with h | h
        · exact Or.inl h
        · rcases ih true c h with h2 | ⟨hmem, hcl⟩
          · exact Or.inl h2
          · exact Or.inr ⟨List.mem_cons_of_mem a hmem, hcl⟩
    · rw [Bool.not_eq_true] at ha
      have e : collapseAux b (a :: as) = a :: collapseAux false as := by
        cases b <;> simp [collapseAux, ha]
      rw [e] at hc
      rcases List.mem_cons.mp hc with h | h
      · rw [h]
        exact Or.inr ⟨List.mem_cons_self a as, ha⟩
      · rcases ih false c h with h2 | ⟨hmem, hcl⟩
        · exact Or.inl h2
        · exact Or.inr ⟨List.mem_cons_of_mem a hmem, hcl⟩

theorem collapseAux_true_head (l : List Char) :
    ∀ c, (collapseAux true l).head? = some c → isDashOrSpace c = false := by
  induction l with
  | nil =>
    intro c hc
    simp [collapseAux] at hc
  | cons a as ih =>
    intro c hc
    by_cases ha : isDashOrSpace a = true
    · have e : collapseAux true (a :: as) = collapseAux true as := by
        simp [collapseAux, ha]
      rw [e] at hc
      exact ih c hc
    · rw [Bool.not_eq_true] at ha
      have e : collapseAux true (a :: as) = a :: collapseAux false as := by
        simp [collapseAux, ha]
      rw [e] at hc
      simp only [List.head?_cons, Option.some.injEq] at hc
      subst hc
      exact ha

theorem noTwoDash_collapseAux (b : Bool) (l : List Char) :
    noTwoDash (collapseAux b l) = true := by
  induction l generalizing b with
  | nil => cases b <;> rfl
  | cons a as ih =>
    by_cases ha : isDashOrSpace a = true
    · cases b with
      | true =>
        have e : collapseAux true (a :: as) = collapseAux true as := by
          simp [collapseAux, ha]
        rw [e]
        exact ih true
      | false =>
        have e : collapseAux false (a :: as) = '-' :: collapseAux true as := by
          simp [collapseAux, ha]
        rw [e]
        cases hx : collapseAux true as with
        | nil => rfl
        | cons d ds =>
          have hd : isDashOrSpace d = false := collapseAux_true_head as d (by rw [hx]; rfl)
          have hd2 : isDash d = false := (isDashOrSpace_false d hd).1
          have h2 := ih true
          rw [hx] at h2
          rw [noTwoDash_cons2, hd2]
          simp [h2]
    · rw [Bool.not_eq_true] at ha
      have e : collapseAux b (a :: as) = a :: collapseAux false as := by
        cases b <;> simp [collapseAux, ha]
      rw [e]
      have ha2 : isDash a = false := (isDashOrSpace_false a ha).1
      cases hx : collapseAux false as with
      | nil => rfl
      | cons d ds =>
        have h2 := ih false
        rw [hx] at h2
        rw [noTwoDash_cons2, ha2]
        simp [h2]

theorem collapseAux_eq_self (l : List Char)
    (hs : ∀ c ∈ l, pyIsSpace c = false)
    (hnd : noTwoDash l = true) :
    collapseAux false l = l := by
  induction l with
  | nil => rfl
  | cons a as ih =>
    by_cases hda : a = '-'
    · subst hda
      have hcl : isDashOrSpace '-' = true := by decide
      have e : collapseAux false ('-' :: as) = '-' :: collapseAux true as := by
        simp [collapseAux, hcl]
      rw [e]
      congr 1
      cases as with
      | nil => rfl
      | cons d ds =>
        have hd2 : isDash d = false := by
          rw [noTwoDash_cons2, Bool.and_eq_true_iff] at hnd
          have hpair := hnd.1
          cases hx : isDash d
          · rfl
          · rw [hx, (by decide : isDash '-' = true)] at hpair
            exact absurd hpair (by decide)
        have hsd : pyIsSpace d = false := hs d (by simp)
        have hclass : isDashOrSpace d = false := by
          unfold isDashOrSpace
          rw [hsd, hd2]
          rfl
        have e2 : collapseAux true (d :: ds) = d :: collapseAux false ds := by
          simp [collapseAux, hclass]
        have e3 : collapseAux false (d :: ds) = d :: collapseAux false ds := by
          simp [collapseAux, hclass]
        rw [e2, ← e3]
        exact ih (fun c hc => hs c (List.mem_cons_of_mem _ hc)) (noTwoDash_tail _ _ hnd)
    · have hsa : pyIsSpace a = false := hs a (by simp)
      have hclass : isDashOrSpace a = false := by
        unfold isDashOrSpace
        rw [hsa]
        have : isDash a = false := by
          unfold isDash
          exact decide_eq_false hda
        rw [this]
        rfl
      have e : collapseAux false (a :: as) = a :: collapseAux false as := by
        simp [collapseAux, hclass]
      rw [e]
      congr 1
      exact ih (fun c hc => hs c (List.mem_cons_of_mem _ hc)) (noTwoDash_tail _ _ hnd)

/-! ### Slugify: stripping facts -/

theorem mem_dropWhile_imp (p : Char → Bool) (l : List Char) :
    ∀ c ∈ l.dropWhile p, c ∈ l := by
  induction l with
  | nil =>
    intro c hc
    exact hc
  | cons a as ih =>
    intro c hc
    by_cases hp : p a = true
    · rw [List.dropWhile_cons_of_pos hp] at hc
      exact List.mem_cons_of_mem a (ih c hc)
    · rw [List.dropWhile_cons_of_neg hp] at hc
      exact hc

theorem dropWhile_eq_drop (p : Char → Bool) (l : List Char) :
    ∃ j, l.dropWhile p = l.drop j := by
  induction l with
  | nil => exact ⟨0, rfl⟩
  | cons a as ih =>
    by_cases hp : p a = true
    · obtain ⟨j, hj⟩ := ih
      exact ⟨j + 1, by rw [List.dropWhile_cons_of_pos hp, List.drop_succ_cons]; exact hj⟩
    · exact ⟨0, by rw [List.dropWhile_cons_of_neg hp, List.drop_zero]⟩

theorem noTwoDash_dropWhile (p : Char → Bool) (l : List Char) (h : noTwoDash l = true) :
    noTwoDash (l.dropWhile p) = true := by
  induction l with
  | nil => exact h
  | cons a as ih =>
    by_cases hp : p a = true
    · rw [List.dropWhile_cons_of_pos hp]
      exact ih (noTwoDash_tail a as h)
    · rw [List.dropWhile_cons_of_neg hp]
      exact h

theorem noTwoDash_take (l : List Char) (h : noTwoDash l = true) :
    ∀ k, noTwoDash (l.take k) = true := by
  induction l with
  | nil =>
    intro k
    rw [List.take_nil]
    rfl
  | cons a as ih =>
    intro k
    cases k with
    | zero => rfl
    | succ k1 =>
      rw [List.take_succ_cons]
      cases as with
      | nil =>
        rw [List.take_nil]
        rfl
      | cons d ds =>
        cases k1 with
        | zero =>
          rw [List.take_zero]
          rfl
        | succ k2 =>
          rw [List.take_succ_cons]
          rw [noTwoDash_cons2, Bool.and_eq_true_iff] at h
          have h2 := ih h.2 (k2 + 1)
          rw [List.take_succ_cons] at h2
          rw [noTwoDash_cons2, h.1, h2]
          rfl

theorem rdropWhile_isDash_eq_take (l : List Char) :
    ∃ k, l.rdropWhile isDash = l.take k := by
  obtain ⟨j, hj⟩ := dropWhile_eq_drop isDash l.reverse
  refine ⟨l.length - j, ?_⟩
  unfold List.rdropWhile
  rw [hj, ← List.rdrop_eq_reverse_drop_reverse]
  unfold List.rdrop
  rfl

theorem mem_stripDashes (l : List Char) : ∀ c ∈ stripDashes l, c ∈ l := by
  intro c hc
  unfold stripDashes at hc
  obtain ⟨k, hk⟩ := rdropWhile_isDash_eq_take (l.dropWhile isDash)
  rw [hk] at hc
  exact mem_dropWhile_imp isDash l c (List.mem_of_mem_take hc)

theorem noTwoDash_stripDashes (l : List Char) (h : noTwoDash l = true) :
    noTwoDash (stripDashes l) = true := by
  unfold stripDashes
  obtain ⟨k, hk⟩ := rdropWhile_isDash_eq_take (l.dropWhile isDash)
  rw [hk]
  exact noTwoDash_take _ (noTwoDash_dropWhile isDash l h) k

theorem stripDashes_head (l : List Char) :
    ∀ c, (stripDashes l).head? = some c → isDash c = false := by
  intro c hc
  unfold stripDashes at hc
  obtain ⟨k, hk⟩ := rdropWhile_isDash_eq_take (l.dropWhile isDash)
  rw [hk] at hc
  have hhead : (l.dropWhile isDash).head? = some c := by
    cases hx : l.dropWhile isDash with
    | nil =>
      rw [hx, List.take_nil] at hc
      exact absurd hc (by simp)
    | cons d ds =>
      rw [hx] at hc
      cases k with
      | zero =>
        rw [List.take_zero] at hc
        exact absurd hc (by simp)
      | succ k1 =>
        rw [List.take_succ_cons] at hc
        simp only [List.head?_cons, Option.some.injEq] at hc
        rw [List.head?_cons, hc]
  have hnot := List.head?_dropWhile_not isDash l
  rw [hhead] at hnot
  exact hnot

theorem stripDashes_last (l : List Char) :
    ∀ c, (stripDashes l).getLast? = some c → isDash c = false := by
  intro c hc
  unfold stripDashes at hc
  have hne : (l.dropWhile isDash).rdropWhile isDash ≠ [] := by
    intro hnil
    rw [hnil] at hc
    exact absurd hc (by simp)
  have hlast := List.rdropWhile_last_not isDash (l.dropWhile isDash) hne
  rw [List.getLast?_eq_getLast _ hne] at hc
  simp only [Option.some.injEq] at hc
  subst hc
  rw [Bool.not_eq_true] at hlast
  exact hlast

theorem stripDashes_eq_self (l : List Char)
    (hh : ∀ c, l.head? = some c → isDash c = false)
    (hl : ∀ c, l.getLast? = some c → isDash c = false) :
    stripDashes l = l := by
  unfold stripDashes
  have h1 : l.dropWhile isDash = l := by
    cases l with
    | nil => rfl
    | cons a as =>
      have := hh a (by rw [List.head?_cons])
      rw [List.dropWhile_cons_of_neg (by simp [this])]
  rw [h1]
  rcases eq_or_ne l [] with rfl | hne
  · simp
  · apply List.rdropWhile_eq_self_iff.mpr
    intro hne2
    have := hl (l.getLast hne2) (List.getLast?_eq_getLast l hne2)
    simp [this]

/-! ### Slugify idempotence -/

theorem slugify_chars (l : List Char) :
    ∀ c ∈ slugify l,
      c = '-' ∨ (c ∈ (l.map pyLower).filter keepChar ∧ isDashOrSpace c = false) := by
  intro c hc
  unfold slugify at hc
  exact mem_collapseAux false _ c (mem_stripDashes _ c hc)

/-- C10: `slugify` is idempotent: applying it to its own output changes
nothing, because the output consists of lowercase word characters and
isolated interior hyphens, all of which every stage of `slugify` leaves
in place. -/
theorem slugify_idempotent (l : List Char) : slugify (slugify l) = slugify l := by
  have hchars := slugify_chars l
  have hdef : ∀ x : List Char,
      slugify x = stripDashes (collapseAux false ((x.map pyLower).filter keepChar)) :=
    fun x => rfl
  have hmap : (slugify l).map pyLower = slugify l := by
    have hfix : ∀ c ∈ slugify l, pyLower c = id c := by
      intro c hc
      rcases hchars c hc with rfl | ⟨hmem, -⟩
      · exact pyLower_fix '-' (by decide)
      · obtain ⟨x, -, rfl⟩ := List.mem_map.mp (List.mem_filter.mp hmem).1
        exact pyLower_idem x
    rw [List.map_congr_left hfix, List.map_id]
  have hfilter : (slugify l).filter keepChar = slugify l := by
    apply List.filter_eq_self.mpr
    intro c hc
    rcases hchars c hc with rfl | ⟨hmem, -⟩
    · decide
    · exact (List.mem_filter.mp hmem).2
  have hnospace : ∀ c ∈ slugify l, pyIsSpace c = false := by
    intro c hc
    rcases hchars c hc with rfl | ⟨-, hcl⟩
    · decide
    · exact (isDashOrSpace_false c hcl).2
  have hnd : noTwoDash (slugify l) = true := by
    rw [hdef l]
    exact noTwoDash_stripDashes _ (noTwoDash_collapseAux false _)
  have hcollapse : collapseAux false (slugify l) = slugify l :=
    collapseAux_eq_self _ hnospace hnd
  have hstrip : stripDashes (slugify l) = slugify l := by
    apply stripDashes_eq_self
    · intro c hc
      rw [hdef l] at hc
      exact stripDashes_head _ c hc
    · intro c hc
      rw [hdef l] at hc
      exact stripDashes_last _ c hc
  rw [hdef (slugify l), hmap, hfilter, hcollapse, hstrip]

end RSSPy
